import Mathlib

/-!
Verification development for the jail-management core (libjail-rs).

The repository ships the core as a compiled extension; only its Python
test-suite callers are present. Following the specification, the core is
modelled here as a pure state machine over an explicit kernel state:
jail creation/stop, parameter marshaling, enumeration, handle provenance
and process spawn/wait are all shallowly embedded, and the testable
properties of the specification are proved against this model.
-/

namespace Jail

/-- Modelled from the spec: the type of a jail parameter value
(boolean, integer, or string); the compiled ParameterCodec is not in
the sources. -/
inductive JType where
  | tBool
  | tInt
  | tStr
deriving DecidableEq, Repr

/-- Modelled from the spec: a jail parameter value is one of
boolean / integer / string. -/
inductive JValue where
  | vBool (b : Bool)
  | vInt (n : Int)
  | vStr (s : String)
deriving DecidableEq, Repr

/-- The kernel-side type of a parameter value. -/
def typeOf : JValue → JType
  | .vBool _ => .tBool
  | .vInt _ => .tInt
  | .vStr _ => .tStr

/-- Modelled from the spec: the error taxonomy of section 7; the
compiled error enum is not in the sources. -/
inductive JailError where
  | NotFound
  | AlreadyExists
  | ParameterUnknown
  | ParameterTypeMismatch
  | PermissionDenied
  | SpawnFailed
  | ProcessAlreadyWaited
  | KernelUnsupported
deriving DecidableEq, Repr

instance {ε α : Type} [DecidableEq ε] [DecidableEq α] : DecidableEq (Except ε α) :=
  fun x y =>
    match x, y with
    | .error a, .error b =>
      if h : a = b then .isTrue (by rw [h]) else .isFalse (by intro hc; cases hc; exact h rfl)
    | .ok a, .ok b =>
      if h : a = b then .isTrue (by rw [h]) else .isFalse (by intro hc; cases hc; exact h rfl)
    | .error _, .ok _ => .isFalse (by intro hc; cases hc)
    | .ok _, .error _ => .isFalse (by intro hc; cases hc)

/-- Modelled from the spec: one active jail in the kernel jail table:
kernel-assigned jid, optional unique name, filesystem root, and the
current parameter mapping. -/
structure JailRecord where
  jid : Nat
  name : Option String
  path : String
  params : List (String × JValue)
deriving DecidableEq, Repr

/-- Modelled from the spec: the kernel jail subsystem state: the table
of active jails, the next jid the kernel will assign (jids are
kernel-assigned positive integers, unique among active jails), and the
kernel parameter table mapping known parameter keys to their types. -/
structure KernelState where
  jails : List JailRecord
  nextJid : Nat
  ptable : List (String × JType)
deriving DecidableEq, Repr

/-- Look up a key in a parameter association list. -/
def lookupA (l : List (String × JValue)) (k : String) : Option JValue :=
  match l with
  | [] => none
  | (k1, v) :: rest => if k1 = k then some v else lookupA rest k

/-- Set a key in a parameter association list, overwriting any
previous binding. -/
def setA (l : List (String × JValue)) (k : String) (v : JValue) :
    List (String × JValue) :=
  match l with
  | [] => [(k, v)]
  | (k1, v1) :: rest => if k1 = k then (k, v) :: rest else (k1, v1) :: setA rest k v

/-- Look up a key in the kernel parameter-type table. -/
def lookupT (l : List (String × JType)) (k : String) : Option JType :=
  match l with
  | [] => none
  | (k1, t) :: rest => if k1 = k then some t else lookupT rest k

/-- The jids of the currently active jails. -/
def jids (st : KernelState) : List Nat :=
  st.jails.map JailRecord.jid

/-- Kernel lookup of an active jail by jid. -/
def findByJid (st : KernelState) (jid : Nat) : Option JailRecord :=
  st.jails.find? (fun j => j.jid == jid)

/-- Whether some active jail already carries the given name. -/
def nameInUse (st : KernelState) (n : String) : Bool :=
  st.jails.any (fun j => j.name == some n)

/-- Modelled from the spec: kernel allocation of a fresh jail record
(create step before parameter application); the compiled create call
is not in the sources. -/
def addJail (st : KernelState) (path : String) (name : Option String) :
    KernelState :=
  { jails := { jid := st.nextJid, name := name, path := path, params := [] } :: st.jails,
    nextJid := st.nextJid + 1,
    ptable := st.ptable }

/-- Remove an active jail record by jid. -/
def removeJail (st : KernelState) (jid : Nat) : KernelState :=
  { st with jails := st.jails.filter (fun j => j.jid != jid) }

/-- Rewrite the record of the jail with the given jid in place. -/
def updateJail (st : KernelState) (jid : Nat) (f : JailRecord → JailRecord) :
    KernelState :=
  { st with jails := st.jails.map (fun j => if j.jid == jid then f j else j) }

/-- Modelled from the spec: marshaling a single parameter to the
kernel: unknown keys fail with ParameterUnknown, type-mismatched
values with ParameterTypeMismatch, and a vanished jail with NotFound;
nothing is silently coerced. -/
def setOneParam (st : KernelState) (jid : Nat) (k : String) (v : JValue) :
    Except JailError KernelState :=
  match findByJid st jid with
  | none => .error .NotFound
  | some _ =>
    match lookupT st.ptable k with
    | none => .error .ParameterUnknown
    | some t =>
      if typeOf v = t then
        .ok (updateJail st jid (fun j => { j with params := setA j.params k v }))
      else
        .error .ParameterTypeMismatch

/-- Apply a list of parameters in order, stopping at the first
marshal failure. -/
def applyParams (st : KernelState) (jid : Nat) :
    List (String × JValue) → Except JailError KernelState
  | [] => .ok st
  | (k, v) :: rest =>
    match setOneParam st jid k v with
    | .ok st1 => applyParams st1 jid rest
    | .error e => .error e

/-- Whether every parameter in the list is known to the kernel table
and carries a value of the kernel-side type. -/
def paramsOk (pt : List (String × JType)) (ps : List (String × JValue)) : Bool :=
  ps.all (fun kv =>
    match lookupT pt kv.1 with
    | some t => typeOf kv.2 = t
    | none => false)

/-- Modelled from the spec: a jail handle owns a kernel jid and
remembers its provenance: owner-created (from create) or attached by
name resolution; provenance decides the cleanup-on-drop policy. -/
structure JailHandle where
  jid : Nat
  owned : Bool
deriving DecidableEq, Repr

/-- Modelled from the spec: stop requests removal of an active jail;
stopping a jid that no longer resolves surfaces NotFound rather than
succeeding or corrupting state. -/
def stop (st : KernelState) (jid : Nat) : Except JailError KernelState :=
  if st.jails.any (fun j => j.jid == jid) then
    .ok (removeJail st jid)
  else
    .error .NotFound

/-- Allocation followed by parameter application, with the explicit
compensating stop of the fresh jail when a parameter fails to apply. -/
def createRaw (st : KernelState) (path : String) (name : Option String)
    (ps : List (String × JValue)) : Except JailError JailHandle × KernelState :=
  match applyParams (addJail st path name) st.nextJid ps with
  | .ok st2 => (.ok { jid := st.nextJid, owned := true }, st2)
  | .error e =>
    match stop (addJail st path name) st.nextJid with
    | .ok st2 => (.error e, st2)
    | .error _ => (.error e, addJail st path name)

/-- Modelled from the spec: create allocates a new kernel jail and
applies the requested parameters; a duplicate name fails with
AlreadyExists before anything is allocated, and a parameter-marshal
failure after allocation performs the explicit compensating stop of
the fresh jail and surfaces the error. The resulting kernel state is
returned alongside the outcome so the compensating action is visible. -/
def create (st : KernelState) (path : String) (name : Option String)
    (ps : List (String × JValue)) : Except JailError JailHandle × KernelState :=
  match name with
  | some n =>
    if nameInUse st n then (.error .AlreadyExists, st)
    else createRaw st path (some n) ps
  | none => createRaw st path none ps

/-- Modelled from the spec: updating parameters of a running jail;
fails with the specific kernel error if the jail no longer exists. -/
def setParameters (st : KernelState) (jid : Nat)
    (ps : List (String × JValue)) : Except JailError KernelState :=
  match findByJid st jid with
  | none => .error .NotFound
  | some _ => applyParams st jid ps

/-- Modelled from the spec: reading one current parameter value of a
running jail through the codec. -/
def getParameter (st : KernelState) (jid : Nat) (k : String) :
    Except JailError JValue :=
  match findByJid st jid with
  | none => .error .NotFound
  | some j =>
    match lookupA j.params k with
    | some v => .ok v
    | none => .error .ParameterUnknown

/-- Modelled from the spec: a read-only enumeration snapshot entry
(jid, name, root path) with no ownership relationship to any handle. -/
structure JailListing where
  jid : Nat
  name : Option String
  path : String
deriving DecidableEq, Repr

/-- Snapshot of one active jail. -/
def toListing (j : JailRecord) : JailListing :=
  { jid := j.jid, name := j.name, path := j.path }

/-- Insert a listing entry into a jid-sorted list. -/
def insertJ (a : JailListing) : List JailListing → List JailListing
  | [] => [a]
  | b :: l => if a.jid ≤ b.jid then a :: b :: l else b :: insertJ a l

/-- Sort listing entries by ascending jid. -/
def sortJ : List JailListing → List JailListing
  | [] => []
  | a :: l => insertJ a (sortJ l)

/-- Modelled from the spec: the enumerator: each call is an
independent fresh kernel query returning a snapshot of all active
jails ordered by ascending jid. -/
def listActive (st : KernelState) : List JailListing :=
  sortJ (st.jails.map toListing)

/-- The jid set of one enumeration. -/
def listingJids (st : KernelState) : List Nat :=
  (listActive st).map JailListing.jid

/-- Well-formedness of a kernel state: every active jid is below the
allocation cursor. -/
def wfB (st : KernelState) : Bool :=
  st.jails.all (fun j => j.jid < st.nextJid)

/-- Modelled from the spec: resolving an existing jail by name yields
an attached (borrowed, non-owning) handle; an absent name is a
distinguished NotFound error. -/
def attachByName (st : KernelState) (n : String) : Except JailError JailHandle :=
  match st.jails.find? (fun j => j.name == some n) with
  | some j => .ok { jid := j.jid, owned := false }
  | none => .error .NotFound

/-- Modelled from the spec: cleanup-on-drop policy: abandoning an
owner-created handle without an explicit stop stops the jail;
abandoning an attached handle leaves the jail untouched. -/
def dropHandle (st : KernelState) (h : JailHandle) : KernelState :=
  if h.owned then removeJail st h.jid else st

/-- Modelled from the spec: a stopped jail is a configuration value
(root path, optional name, parameters) from which running jails are
started; it holds no kernel resources of its own. -/
structure StoppedJail where
  path : String
  name : Option String
  params : List (String × JValue)
deriving DecidableEq, Repr

/-- Starting a stopped-jail configuration creates a kernel jail from
its fields; the configuration value itself is not consumed. -/
def start (s : StoppedJail) (st : KernelState) :
    Except JailError JailHandle × KernelState :=
  create st s.path s.name s.params

/-- Start the same stopped-jail configuration n times in sequence,
collecting the handles of the successful starts. -/
def startTimes (s : StoppedJail) (st : KernelState) :
    Nat → List JailHandle × KernelState
  | 0 => ([], st)
  | n + 1 =>
    match start s st with
    | (.ok h, st1) =>
      let r := startTimes s st1 n
      (h :: r.1, r.2)
    | (.error _, st1) => startTimes s st1 n

/-- Modelled from the spec: a spawned process handle: the jail it runs
in, the bytes buffered on its captured stdout pipe, its exit code,
and whether it has already been waited for. -/
structure Process where
  jid : Nat
  outBuf : List Nat
  exitCode : Int
  waited : Bool
deriving DecidableEq, Repr

/-- Modelled from the spec: spawning the byte-echoing pass-through
program (cat) inside a running jail with captured stdio; spawn fails
synchronously if the jail no longer exists. The process exits with
code 0 once its input is consumed. -/
def spawnCat (st : KernelState) (jid : Nat) : Except JailError Process :=
  if st.jails.any (fun j => j.jid == jid) then
    .ok { jid := jid, outBuf := [], exitCode := 0, waited := false }
  else
    .error .SpawnFailed

/-- Modelled from the spec: writing bytes to the captured stdin of the
byte-echoing process; the echo appears on its stdout buffer. -/
def writeStdin (p : Process) (b : List Nat) : Process :=
  { p with outBuf := p.outBuf ++ b }

/-- Modelled from the spec: blocking read of at most maxBytes from the
captured stdout pipe; buffered bytes are returned even after exit. -/
def readStdout (p : Process) (maxBytes : Nat) : List Nat × Process :=
  (p.outBuf.take maxBytes, { p with outBuf := p.outBuf.drop maxBytes })

/-- Modelled from the spec: wait blocks until the process exits and
returns its exit code; a second wait on the same process is an
ECHILD-class ProcessAlreadyWaited error. -/
def wait (p : Process) : Except JailError (Int × Process) :=
  if p.waited then
    .error .ProcessAlreadyWaited
  else
    .ok (p.exitCode, { p with waited := true })

/-- A kernel-facing operation, used to quantify over arbitrary
subsequent activity on the jail table. -/
inductive Op where
  | opCreate (path : String) (name : Option String) (ps : List (String × JValue))
  | opStop (jid : Nat)
  | opSet (jid : Nat) (ps : List (String × JValue))
deriving Repr

/-- The kernel state left behind by one operation (errors leave the
state as the operation returned it). -/
def applyOp (st : KernelState) : Op → KernelState
  | .opCreate path name ps => (create st path name ps).2
  | .opStop jid =>
    match stop st jid with
    | .ok st1 => st1
    | .error _ => st
  | .opSet jid ps =>
    match setParameters st jid ps with
    | .ok st1 => st1
    | .error _ => st

/-- Run a sequence of operations. -/
def runOps (st : KernelState) : List Op → KernelState
  | [] => st
  | op :: rest => runOps (applyOp st op) rest

/-- A concrete initial kernel state: empty jail table, jids start at
1, and a parameter table knowing the hostname parameter. -/
def initState : KernelState :=
  { jails := [], nextJid := 1, ptable := [("host.hostname", .tStr)] }

theorem jids_addJail (st : KernelState) (path : String) (name : Option String) :
    jids (addJail st path name) = st.nextJid :: jids st := rfl

theorem nextJid_addJail (st : KernelState) (path : String) (name : Option String) :
    (addJail st path name).nextJid = st.nextJid + 1 := rfl

theorem map_jid_update (l : List JailRecord) (a : Nat) (f : JailRecord → JailRecord)
    (hf : ∀ j, (f j).jid = j.jid) :
    (l.map (fun j => if j.jid == a then f j else j)).map JailRecord.jid =
      l.map JailRecord.jid := by
  induction l with
  | nil => rfl
  | cons b l ih =>
    simp only [List.map_cons, ih]
    by_cases h : b.jid = a
    · simp [h, hf]
    · simp [h]

theorem jids_updateJail (st : KernelState) (a : Nat) (f : JailRecord → JailRecord)
    (hf : ∀ j, (f j).jid = j.jid) :
    jids (updateJail st a f) = jids st := by
  simpa [jids, updateJail] using map_jid_update st.jails a f hf

theorem setOneParam_ok (st : KernelState) (a : Nat) (k : String) (v : JValue)
    (st1 : KernelState) (h : setOneParam st a k v = .ok st1) :
    jids st1 = jids st ∧ st1.nextJid = st.nextJid ∧ st1.ptable = st.ptable := by
  unfold setOneParam at h
  split at h
  · exact absurd h (by simp)
  · split at h
    · exact absurd h (by simp)
    · split at h
      · cases h
        refine ⟨jids_updateJail _ _ _ (fun j => rfl), rfl, rfl⟩
      · exact absurd h (by simp)

theorem applyParams_ok :
    ∀ (ps : List (String × JValue)) (st : KernelState) (a : Nat) (st1 : KernelState),
      applyParams st a ps = .ok st1 →
      jids st1 = jids st ∧ st1.nextJid = st.nextJid ∧ st1.ptable = st.ptable := by
  intro ps
  induction ps with
  | nil =>
    intro st a st1 h
    cases h
    exact ⟨rfl, rfl, rfl⟩
  | cons kv rest ih =>
    intro st a st1 h
    unfold applyParams at h
    split at h
    · rename_i st2 hset
      obtain ⟨h1, h2, h3⟩ := setOneParam_ok st a kv.1 kv.2 st2 hset
      obtain ⟨g1, g2, g3⟩ := ih st2 a st1 h
      exact ⟨g1.trans h1, g2.trans h2, g3.trans h3⟩
    · exact absurd h (by simp)

theorem mem_jids_iff_any (st : KernelState) (a : Nat) :
    (st.jails.any (fun j => j.jid == a)) = true ↔ a ∈ jids st := by
  simp only [List.any_eq_true, jids, List.mem_map, beq_iff_eq]

theorem findByJid_eq_some_of_mem (st : KernelState) (a : Nat) (h : a ∈ jids st) :
    ∃ j, findByJid st a = some j ∧ j.jid = a := by
  have hs : (st.jails.find? (fun j => j.jid == a)).isSome := by
    rw [List.find?_isSome]
    obtain ⟨j, hj, hja⟩ := List.mem_map.mp (show a ∈ st.jails.map JailRecord.jid from h)
    exact ⟨j, hj, by simp [hja]⟩
  match hm : st.jails.find? (fun j => j.jid == a) with
  | some j =>
    exact ⟨j, hm, by simpa using List.find?_some hm⟩
  | none => rw [hm] at hs; cases hs

theorem mem_jids_removeJail (st : KernelState) (a b : Nat) :
    a ∈ jids (removeJail st b) ↔ a ∈ jids st ∧ a ≠ b := by
  simp only [jids, removeJail, List.mem_map, List.mem_filter, bne_iff_ne]
  constructor
  · rintro ⟨j, ⟨hj, hne⟩, rfl⟩
    exact ⟨⟨j, hj, rfl⟩, hne⟩
  · rintro ⟨⟨j, hj, rfl⟩, hne⟩
    exact ⟨j, ⟨hj, hne⟩, rfl⟩

theorem stop_ok_of_mem (st : KernelState) (a : Nat) (h : a ∈ jids st) :
    stop st a = .ok (removeJail st a) := by
  unfold stop
  rw [if_pos ((mem_jids_iff_any st a).mpr h)]

theorem stop_err_of_not_mem (st : KernelState) (a : Nat) (h : a ∉ jids st) :
    stop st a = .error .NotFound := by
  unfold stop
  rw [if_neg]
  intro hc
  exact h ((mem_jids_iff_any st a).mp hc)

theorem paramsOk_cons (pt : List (String × JType)) (k : String) (v : JValue)
    (rest : List (String × JValue)) (h : paramsOk pt ((k, v) :: rest) = true) :
    (∃ t, lookupT pt k = some t ∧ typeOf v = t) ∧ paramsOk pt rest = true := by
  simp only [paramsOk, List.all_cons, Bool.and_eq_true] at h
  obtain ⟨h1, h2⟩ := h
  refine ⟨?_, h2⟩
  revert h1
  match hl : lookupT pt k with
  | some t =>
    intro h1
    exact ⟨t, rfl, by simpa using h1⟩
  | none =>
    intro h1
    simp at h1

theorem setOneParam_eq (st : KernelState) (a : Nat) (k : String) (v : JValue)
    (j : JailRecord) (t : JType) (hf : findByJid st a = some j)
    (hl : lookupT st.ptable k = some t) (ht : typeOf v = t) :
    setOneParam st a k v =
      .ok (updateJail st a (fun j => { j with params := setA j.params k v })) := by
  simp only [setOneParam, hf, hl]
  rw [if_pos ht]

theorem applyParams_total :
    ∀ (ps : List (String × JValue)) (st : KernelState) (a : Nat),
      a ∈ jids st → paramsOk st.ptable ps = true →
      ∃ st1, applyParams st a ps = .ok st1 := by
  intro ps
  induction ps with
  | nil =>
    intro st a _ _
    exact ⟨st, rfl⟩
  | cons kv rest ih =>
    intro st a hmem hok
    obtain ⟨k, v⟩ := kv
    obtain ⟨⟨t, hl, ht⟩, hrest⟩ := paramsOk_cons st.ptable k v rest hok
    obtain ⟨j, hf, _⟩ := findByJid_eq_some_of_mem st a hmem
    have hset := setOneParam_eq st a k v j t hf hl ht
    have hjids : jids (updateJail st a (fun j => { j with params := setA j.params k v })) =
        jids st := jids_updateJail st a _ (fun j => rfl)
    obtain ⟨st3, h3⟩ := ih (updateJail st a (fun j => { j with params := setA j.params k v }))
      a (by rw [hjids]; exact hmem) hrest
    refine ⟨st3, ?_⟩
    simp only [applyParams, hset]
    exact h3

theorem create_unnamed (st : KernelState) (path : String) (ps : List (String × JValue))
    (hok : paramsOk st.ptable ps = true) :
    ∃ st1, create st path none ps = (.ok { jid := st.nextJid, owned := true }, st1) ∧
      jids st1 = st.nextJid :: jids st ∧ st1.nextJid = st.nextJid + 1 ∧
      st1.ptable = st.ptable := by
  have hmem : st.nextJid ∈ jids (addJail st path none) := by
    rw [jids_addJail]
    exact List.mem_cons_self _ _
  obtain ⟨st1, h1⟩ := applyParams_total ps (addJail st path none) st.nextJid hmem hok
  obtain ⟨hj, hn, hp⟩ := applyParams_ok ps (addJail st path none) st.nextJid st1 h1
  refine ⟨st1, ?_, ?_, ?_, ?_⟩
  · simp only [create, createRaw, h1]
  · rw [hj, jids_addJail]
  · rw [hn, nextJid_addJail]
  · exact hp

theorem createRaw_snd (st : KernelState) (path : String) (name : Option String)
    (ps : List (String × JValue)) :
    (∀ a, a ∈ jids (createRaw st path name ps).2 → a ∈ jids st ∨ a = st.nextJid) ∧
    (createRaw st path name ps).2.nextJid = st.nextJid + 1 ∧
    (createRaw st path name ps).2.ptable = st.ptable := by
  have hmem : st.nextJid ∈ jids (addJail st path name) := by
    rw [jids_addJail]
    exact List.mem_cons_self _ _
  unfold createRaw
  cases hap : applyParams (addJail st path name) st.nextJid ps with
  | ok st2 =>
    obtain ⟨hj, hn, hp⟩ := applyParams_ok ps (addJail st path name) st.nextJid st2 hap
    refine ⟨?_, ?_, hp⟩
    · intro a ha
      rw [hj, jids_addJail] at ha
      rcases List.mem_cons.mp ha with h | h
      · exact Or.inr h
      · exact Or.inl h
    · rw [hn, nextJid_addJail]
  | error e =>
    rw [stop_ok_of_mem (addJail st path name) st.nextJid hmem]
    refine ⟨?_, rfl, rfl⟩
    intro a ha
    rw [mem_jids_removeJail] at ha
    obtain ⟨ha1, ha2⟩ := ha
    rw [jids_addJail] at ha1
    rcases List.mem_cons.mp ha1 with h | h
    · exact absurd h ha2
    · exact Or.inl h

theorem create_none_eq (st : KernelState) (path : String) (ps : List (String × JValue)) :
    create st path none ps = createRaw st path none ps := rfl

theorem create_some_dup (st : KernelState) (path : String) (n : String)
    (ps : List (String × JValue)) (h : nameInUse st n = true) :
    create st path (some n) ps = (.error .AlreadyExists, st) := by
  simp [create, h]

theorem create_some_fresh (st : KernelState) (path : String) (n : String)
    (ps : List (String × JValue)) (h : nameInUse st n = false) :
    create st path (some n) ps = createRaw st path (some n) ps := by
  simp [create, h]

theorem create_snd (st : KernelState) (path : String) (name : Option String)
    (ps : List (String × JValue)) :
    (∀ a, a ∈ jids (create st path name ps).2 → a ∈ jids st ∨ a = st.nextJid) ∧
    st.nextJid ≤ (create st path name ps).2.nextJid ∧
    (create st path name ps).2.ptable = st.ptable := by
  cases name with
  | none =>
    rw [create_none_eq]
    obtain ⟨h1, h2, h3⟩ := createRaw_snd st path none ps
    exact ⟨h1, by rw [h2]; omega, h3⟩
  | some n =>
    cases h : nameInUse st n with
    | true =>
      rw [create_some_dup st path n ps h]
      exact ⟨fun a ha => Or.inl ha, Nat.le_refl _, rfl⟩
    | false =>
      rw [create_some_fresh st path n ps h]
      obtain ⟨h1, h2, h3⟩ := createRaw_snd st path (some n) ps
      exact ⟨h1, by rw [h2]; omega, h3⟩

theorem stop_ok_eq (st : KernelState) (a : Nat) (st1 : KernelState)
    (h : stop st a = .ok st1) : st1 = removeJail st a := by
  unfold stop at h
  split at h
  · cases h
    rfl
  · cases h

theorem applyOp_facts (st : KernelState) (op : Op) :
    (∀ a, a ∈ jids (applyOp st op) → a ∈ jids st ∨ a = st.nextJid) ∧
    st.nextJid ≤ (applyOp st op).nextJid := by
  cases op with
  | opCreate path name ps =>
    obtain ⟨h1, h2, _⟩ := create_snd st path name ps
    exact ⟨h1, h2⟩
  | opStop jid =>
    cases h : stop st jid with
    | ok st1 =>
      have he : applyOp st (.opStop jid) = st1 := by simp only [applyOp, h]
      rw [he, stop_ok_eq st jid st1 h]
      refine ⟨?_, Nat.le_refl _⟩
      intro a ha
      exact Or.inl ((mem_jids_removeJail st a jid).mp ha).1
    | error e =>
      have he : applyOp st (.opStop jid) = st := by simp only [applyOp, h]
      rw [he]
      exact ⟨fun a ha => Or.inl ha, Nat.le_refl _⟩
  | opSet jid ps =>
    cases h : setParameters st jid ps with
    | ok st1 =>
      have he : applyOp st (.opSet jid ps) = st1 := by simp only [applyOp, h]
      rw [he]
      unfold setParameters at h
      split at h
      · cases h
      · obtain ⟨hj, hn, _⟩ := applyParams_ok ps st jid st1 h
        exact ⟨fun a ha => Or.inl (hj ▸ ha), Nat.le_of_eq hn.symm⟩
    | error e =>
      have he : applyOp st (.opSet jid ps) = st := by simp only [applyOp, h]
      rw [he]
      exact ⟨fun a ha => Or.inl ha, Nat.le_refl _⟩

theorem runOps_not_mem :
    ∀ (ops : List Op) (st : KernelState) (a : Nat),
      a < st.nextJid → a ∉ jids st →
      a ∉ jids (runOps st ops) ∧ a < (runOps st ops).nextJid := by
  intro ops
  induction ops with
  | nil =>
    intro st a h1 h2
    exact ⟨h2, h1⟩
  | cons op rest ih =>
    intro st a h1 h2
    obtain ⟨hmem, hnext⟩ := applyOp_facts st op
    have ha : a ∉ jids (applyOp st op) := by
      intro hc
      rcases hmem a hc with h | h
      · exact h2 h
      · omega
    exact ih (applyOp st op) a (lt_of_lt_of_le h1 hnext) ha

theorem mem_insertJ (a x : JailListing) (l : List JailListing) :
    x ∈ insertJ a l ↔ x = a ∨ x ∈ l := by
  induction l with
  | nil => simp [insertJ]
  | cons b l ih =>
    unfold insertJ
    split
    · simp [List.mem_cons]
    · simp only [List.mem_cons, ih]
      tauto

theorem mem_sortJ (x : JailListing) (l : List JailListing) :
    x ∈ sortJ l ↔ x ∈ l := by
  induction l with
  | nil => simp [sortJ]
  | cons a l ih =>
    simp only [sortJ, mem_insertJ, ih, List.mem_cons]

theorem lookupA_setA (l : List (String × JValue)) (k : String) (v : JValue) :
    lookupA (setA l k v) k = some v := by
  induction l with
  | nil => simp [setA, lookupA]
  | cons kv l ih =>
    obtain ⟨k1, v1⟩ := kv
    by_cases h : k1 = k
    · simp [setA, h, lookupA]
    · simp [setA, h, lookupA, ih]

theorem find?_map_update (l : List JailRecord) (a : Nat) (f : JailRecord → JailRecord)
    (hf : ∀ j, (f j).jid = j.jid) :
    (l.map (fun j => if j.jid == a then f j else j)).find? (fun j => j.jid == a) =
      (l.find? (fun j => j.jid == a)).map f := by
  induction l with
  | nil => rfl
  | cons b l ih =>
    by_cases h : b.jid = a
    · have hfb : (f b).jid = a := by rw [hf]; exact h
      rw [List.map_cons, if_pos (by simp [h])]
      rw [List.find?_cons_of_pos _ (by simp [hfb]), List.find?_cons_of_pos _ (by simp [h])]
      rfl
    · rw [List.map_cons, if_neg (by simp [h])]
      rw [List.find?_cons_of_neg _ (by simp [h]), List.find?_cons_of_neg _ (by simp [h])]
      exact ih

theorem findByJid_updateJail (st : KernelState) (a : Nat) (f : JailRecord → JailRecord)
    (hf : ∀ j, (f j).jid = j.jid) :
    findByJid (updateJail st a f) a = (findByJid st a).map f := by
  simpa [findByJid, updateJail] using find?_map_update st.jails a f hf

theorem setOneParam_ok_inv (st : KernelState) (a : Nat) (k : String) (v : JValue)
    (st2 : KernelState) (h : setOneParam st a k v = .ok st2) :
    st2 = updateJail st a (fun j => { j with params := setA j.params k v }) := by
  unfold setOneParam at h
  split at h
  · cases h
  · split at h
    · cases h
    · split at h
      · cases h
        rfl
      · cases h

theorem applyParams_single_get (st : KernelState) (a : Nat) (k : String) (v : JValue)
    (st1 : KernelState) (hmem : a ∈ jids st)
    (h : applyParams st a [(k, v)] = .ok st1) :
    getParameter st1 a k = .ok v := by
  obtain ⟨j0, hj0, _⟩ := findByJid_eq_some_of_mem st a hmem
  unfold applyParams at h
  split at h
  · rename_i st2 hset
    have hst : st2 = st1 := by simpa [applyParams] using h
    subst hst
    rw [setOneParam_ok_inv st a k v st2 hset]
    unfold getParameter
    rw [findByJid_updateJail st a
      (fun j => { j with params := setA j.params k v }) (fun j => rfl), hj0]
    simp [lookupA_setA]
  · cases h

theorem create_ok_inv (st : KernelState) (path : String) (name : Option String)
    (ps : List (String × JValue)) (h : JailHandle) (st1 : KernelState)
    (hc : create st path name ps = (.ok h, st1)) :
    h = { jid := st.nextJid, owned := true } ∧
    applyParams (addJail st path name) st.nextJid ps = .ok st1 := by
  have hraw : createRaw st path name ps = (.ok h, st1) := by
    cases name with
    | none => rw [← create_none_eq]; exact hc
    | some n =>
      cases hn : nameInUse st n with
      | true =>
        rw [create_some_dup st path n ps hn] at hc
        have := congrArg Prod.fst hc
        simp at this
      | false =>
        rw [← create_some_fresh st path n ps hn]
        exact hc
  unfold createRaw at hraw
  split at hraw
  · rename_i st2 hap
    obtain ⟨h1, h2⟩ := Prod.mk.injEq _ _ _ _ ▸ hraw
    cases h1
    exact ⟨rfl, h2 ▸ hap⟩
  · rename_i e hap
    split at hraw
    · have := congrArg Prod.fst hraw
      simp at this
    · have := congrArg Prod.fst hraw
      simp at this

theorem map_jid_filter (l : List JailRecord) (a : Nat) :
    (l.filter (fun j => j.jid != a)).map JailRecord.jid =
      (l.map JailRecord.jid).filter (fun x => x != a) := by
  induction l with
  | nil => rfl
  | cons b l ih =>
    by_cases h : b.jid = a
    · simp [List.filter_cons, h, ih]
    · simp [List.filter_cons, h, ih]

theorem jids_removeJail_eq (st : KernelState) (a : Nat) :
    jids (removeJail st a) = (jids st).filter (fun x => x != a) := by
  simpa [jids, removeJail] using map_jid_filter st.jails a

theorem wfB_lt (st : KernelState) (h : wfB st = true) :
    ∀ a ∈ jids st, a < st.nextJid := by
  intro a ha
  obtain ⟨j, hj, rfl⟩ := List.mem_map.mp (show a ∈ st.jails.map JailRecord.jid from ha)
  have := List.all_eq_true.mp h j hj
  simpa using this

theorem startTimes_unnamed :
    ∀ (n : Nat) (s : StoppedJail) (st : KernelState),
      s.name = none → paramsOk st.ptable s.params = true →
      ((startTimes s st n).1.map JailHandle.jid = List.range' st.nextJid n) ∧
      ((startTimes s st n).2.nextJid = st.nextJid + n) ∧
      ((startTimes s st n).2.ptable = st.ptable) ∧
      (∀ a, a ∈ jids (startTimes s st n).2 ↔
        a ∈ jids st ∨ a ∈ List.range' st.nextJid n) := by
  intro n
  induction n with
  | zero =>
    intro s st _ _
    refine ⟨rfl, rfl, rfl, ?_⟩
    intro a
    simp [startTimes, List.range']
  | succ n ih =>
    intro s st hn hok
    obtain ⟨st1, hcr, hjids, hnext, hpt⟩ := create_unnamed st s.path s.params hok
    have hstart : start s st = (.ok { jid := st.nextJid, owned := true }, st1) := by
      unfold start
      rw [hn]
      exact hcr
    have hred : startTimes s st (n + 1) =
        ({ jid := st.nextJid, owned := true } :: (startTimes s st1 n).1,
          (startTimes s st1 n).2) := by
      simp only [startTimes, hstart]
    obtain ⟨ih1, ih2, ih3, ih4⟩ := ih s st1 hn (by rw [hpt]; exact hok)
    rw [hred]
    refine ⟨?_, ?_, ?_, ?_⟩
    · simp only [List.map_cons, ih1, hnext]
      rfl
    · simp only [ih2, hnext]
      omega
    · rw [ih3, hpt]
    · intro a
      have hr : List.range' st.nextJid (n + 1) =
          st.nextJid :: List.range' (st.nextJid + 1) n := rfl
      rw [ih4, hjids, hr]
      simp only [List.mem_cons, hnext]
      tauto

theorem mem_listingJids (st : KernelState) (a : Nat) :
    a ∈ listingJids st ↔ a ∈ jids st := by
  unfold listingJids listActive jids
  simp only [List.mem_map]
  constructor
  · rintro ⟨x, hx, rfl⟩
    rw [mem_sortJ] at hx
    obtain ⟨j, hj, rfl⟩ := List.mem_map.mp hx
    exact ⟨j, hj, rfl⟩
  · rintro ⟨j, hj, rfl⟩
    exact ⟨toListing j, (mem_sortJ _ _).mpr (List.mem_map.mpr ⟨j, hj, rfl⟩), rfl⟩

theorem findByJid_some_mem (st : KernelState) (a : Nat) (j : JailRecord)
    (h : findByJid st a = some j) : a ∈ jids st := by
  have h1 := List.mem_of_find?_eq_some h
  have h3 : j.jid = a := by simpa using List.find?_some h
  show a ∈ st.jails.map JailRecord.jid
  exact List.mem_map.mpr ⟨j, h1, h3⟩

/-- C1: after successfully starting N jails from a stopped-jail
configuration, a single subsequent enumeration returns a jid set that
includes every started jid (in particular, 100 started jails are all
present in one enumeration taken afterwards). -/
theorem c1_enumeration_complete (s : StoppedJail) (st : KernelState) (n : Nat)
    (h : JailHandle) (hname : s.name = none)
    (hps : paramsOk st.ptable s.params = true)
    (hmem : h ∈ (startTimes s st n).1) :
    h.jid ∈ listingJids (startTimes s st n).2 := by
  obtain ⟨h1, _, _, h4⟩ := startTimes_unnamed n s st hname hps
  rw [mem_listingJids, h4]
  right
  rw [← h1]
  exact List.mem_map.mpr ⟨h, hmem, rfl⟩

theorem c1_enumeration_complete_witness :
    ({ jid := 37, owned := true } : JailHandle) ∈
      (startTimes { path := "/rescue", name := none, params := [] } initState 100).1 ∧
    (37 : Nat) ∈ listingJids
      (startTimes { path := "/rescue", name := none, params := [] } initState 100).2 :=
  ⟨by decide,
    c1_enumeration_complete { path := "/rescue", name := none, params := [] }
      initState 100 { jid := 37, owned := true } rfl rfl (by decide)⟩

/-- C2: parameter round-trip: setting a parameter value v on a jail
(whether at creation or through a later set_parameters call) and then
reading that parameter back returns exactly v, for every supported
value type. -/
theorem c2_param_roundtrip :
    (∀ (st : KernelState) (a : Nat) (k : String) (v : JValue) (st1 : KernelState),
      setParameters st a [(k, v)] = .ok st1 → getParameter st1 a k = .ok v) ∧
    (∀ (st : KernelState) (path : String) (name : Option String) (k : String)
      (v : JValue) (h : JailHandle) (st1 : KernelState),
      create st path name [(k, v)] = (.ok h, st1) → getParameter st1 h.jid k = .ok v) := by
  constructor
  · intro st a k v st1 hs
    unfold setParameters at hs
    split at hs
    · cases hs
    · rename_i j hj
      exact applyParams_single_get st a k v st1 (findByJid_some_mem st a j hj) hs
  · intro st path name k v h st1 hc
    obtain ⟨hh, hap⟩ := create_ok_inv st path name [(k, v)] h st1 hc
    cases hh
    have hmem : st.nextJid ∈ jids (addJail st path name) := by
      rw [jids_addJail]
      exact List.mem_cons_self _ _
    exact applyParams_single_get (addJail st path name) st.nextJid k v st1 hmem hap

theorem c2_param_roundtrip_witness :
    create initState "/rescue" none [("host.hostname", .vStr "test")] =
      (.ok { jid := 1, owned := true },
        (create initState "/rescue" none [("host.hostname", .vStr "test")]).2) ∧
    getParameter (create initState "/rescue" none [("host.hostname", .vStr "test")]).2
      1 "host.hostname" = .ok (.vStr "test") :=
  ⟨by decide,
    c2_param_roundtrip.2 initState "/rescue" none "host.hostname" (.vStr "test")
      { jid := 1, owned := true }
      (create initState "/rescue" none [("host.hostname", .vStr "test")]).2 (by decide)⟩

/-- C3: spawn/stdio fidelity: spawning the byte-echoing pass-through
program in a running jail with captured stdio, writing a byte sequence
b to its stdin and reading its stdout (with a large enough read bound)
yields exactly b, and waiting on the process reports exit code 0. -/
theorem c3_stdio_fidelity (st : KernelState) (a : Nat) (p : Process)
    (b : List Nat) (m : Nat) (hs : spawnCat st a = .ok p) (hlen : b.length ≤ m) :
    (readStdout (writeStdin p b) m).1 = b ∧
    ∃ p2, wait (readStdout (writeStdin p b) m).2 = .ok (0, p2) := by
  unfold spawnCat at hs
  split at hs
  · cases hs
    constructor
    · simp only [writeStdin, readStdout, List.nil_append]
      exact List.take_of_length_le hlen
    · exact ⟨_, rfl⟩
  · cases hs

theorem c3_stdio_fidelity_witness :
    spawnCat (create initState "/rescue" none []).2 1 =
      .ok { jid := 1, outBuf := [], exitCode := 0, waited := false } ∧
    ([104, 101, 108, 108, 111] : List Nat).length ≤ 100 ∧
    ((readStdout (writeStdin { jid := 1, outBuf := [], exitCode := 0, waited := false }
        [104, 101, 108, 108, 111]) 100).1 = [104, 101, 108, 108, 111] ∧
      ∃ p2, wait (readStdout (writeStdin
        { jid := 1, outBuf := [], exitCode := 0, waited := false }
        [104, 101, 108, 108, 111]) 100).2 = .ok (0, p2)) :=
  ⟨by decide, by decide,
    c3_stdio_fidelity (create initState "/rescue" none []).2 1
      { jid := 1, outBuf := [], exitCode := 0, waited := false }
      [104, 101, 108, 108, 111] 100 (by decide) (by decide)⟩

/-- C4: create is atomic with respect to parameter application: when
parameter application fails after the kernel jail was allocated, the
fresh jail is torn down by the explicit compensating stop, the error
is surfaced, and the set of active jails is exactly what it was before
the call — no half-configured jail is left running. -/
theorem c4_create_rollback (st : KernelState) (path : String) (name : Option String)
    (ps : List (String × JValue)) (e : JailError) (hwf : wfB st = true)
    (hname : ∀ n, name = some n → nameInUse st n = false)
    (hap : applyParams (addJail st path name) st.nextJid ps = .error e) :
    (create st path name ps).1 = .error e ∧
    jids (create st path name ps).2 = jids st := by
  have hceq : create st path name ps = createRaw st path name ps := by
    cases name with
    | none => exact create_none_eq st path ps
    | some n => exact create_some_fresh st path n ps (hname n rfl)
  have hmem : st.nextJid ∈ jids (addJail st path name) := by
    rw [jids_addJail]
    exact List.mem_cons_self _ _
  have hred : createRaw st path name ps =
      (.error e, removeJail (addJail st path name) st.nextJid) := by
    simp only [createRaw, hap, stop_ok_of_mem _ _ hmem]
  rw [hceq, hred]
  refine ⟨rfl, ?_⟩
  rw [jids_removeJail_eq, jids_addJail, List.filter_cons]
  simp only [bne_self_eq_false, Bool.false_eq_true, if_false]
  exact List.filter_eq_self.mpr
    (fun a ha => by simpa using Nat.ne_of_lt (wfB_lt st hwf a ha))

theorem c4_create_rollback_witness :
    wfB initState = true ∧
    applyParams (addJail initState "/r" none) initState.nextJid [("bogus", .vInt 3)] =
      .error .ParameterUnknown ∧
    ((create initState "/r" none [("bogus", .vInt 3)]).1 = .error .ParameterUnknown ∧
      jids (create initState "/r" none [("bogus", .vInt 3)]).2 = jids initState) :=
  ⟨by decide, by decide,
    c4_create_rollback initState "/r" none [("bogus", .vInt 3)] .ParameterUnknown
      (by decide) (fun n h => nomatch h) (by decide)⟩

/-- C5: create-then-stop is a no-op on the enumerator: a jail that is
created and then successfully stopped never has its jid appear in any
later enumeration, whatever further operations run on the kernel. -/
theorem c5_stop_not_enumerated (st : KernelState) (path : String)
    (name : Option String) (ps : List (String × JValue)) (h : JailHandle)
    (st1 st2 : KernelState) (ops : List Op)
    (hc : create st path name ps = (.ok h, st1)) (hs : stop st1 h.jid = .ok st2) :
    h.jid ∉ listingJids (runOps st2 ops) := by
  obtain ⟨hh, hap⟩ := create_ok_inv st path name ps h st1 hc
  obtain ⟨hj, hn, _⟩ := applyParams_ok ps (addJail st path name) st.nextJid st1 hap
  cases hh
  have h2 : st2 = removeJail st1 st.nextJid := stop_ok_eq st1 _ st2 hs
  subst h2
  have hnot : st.nextJid ∉ jids (removeJail st1 st.nextJid) := fun hc2 =>
    ((mem_jids_removeJail st1 _ _).mp hc2).2 rfl
  have hlt : st.nextJid < (removeJail st1 st.nextJid).nextJid := by
    show st.nextJid < st1.nextJid
    rw [hn, nextJid_addJail]
    omega
  obtain ⟨hfin, _⟩ := runOps_not_mem ops (removeJail st1 st.nextJid) st.nextJid hlt hnot
  intro hcontra
  exact hfin ((mem_listingJids _ _).mp hcontra)

theorem c5_stop_not_enumerated_witness :
    create initState "/rescue" none [] =
      (.ok { jid := 1, owned := true }, (create initState "/rescue" none []).2) ∧
    stop (create initState "/rescue" none []).2 1 =
      .ok (removeJail (create initState "/rescue" none []).2 1) ∧
    (1 : Nat) ∉ listingJids (runOps (removeJail (create initState "/rescue" none []).2 1)
      [.opCreate "/x" none [], .opStop 5]) :=
  ⟨by decide, by decide,
    c5_stop_not_enumerated initState "/rescue" none [] { jid := 1, owned := true }
      (create initState "/rescue" none []).2
      (removeJail (create initState "/rescue" none []).2 1)
      [.opCreate "/x" none [], .opStop 5] (by decide) (by decide)⟩

/-- C6: stopping a jail that no longer exists — including a second
stop of an already-stopped jail — returns the NotFound error, never
success. -/
theorem c6_stop_notfound :
    (∀ (st : KernelState) (a : Nat), a ∉ jids st → stop st a = .error .NotFound) ∧
    (∀ (st st1 : KernelState) (a : Nat), stop st a = .ok st1 →
      stop st1 a = .error .NotFound) := by
  constructor
  · intro st a h
    exact stop_err_of_not_mem st a h
  · intro st st1 a h
    rw [stop_ok_eq st a st1 h]
    exact stop_err_of_not_mem _ a
      (fun hc => ((mem_jids_removeJail st a a).mp hc).2 rfl)

theorem c6_stop_notfound_witness :
    stop (create initState "/rescue" none []).2 1 =
      .ok (removeJail (create initState "/rescue" none []).2 1) ∧
    stop (removeJail (create initState "/rescue" none []).2 1) 1 =
      .error .NotFound :=
  ⟨by decide,
    c6_stop_notfound.2 (create initState "/rescue" none []).2
      (removeJail (create initState "/rescue" none []).2 1) 1 (by decide)⟩

/-- C7: wait returns the process's exit code exactly once: the first
wait on a process yields its exit code, and any wait on the
already-waited process returns the ProcessAlreadyWaited (ECHILD-class)
error rather than a repeated or garbage result. -/
theorem c7_wait_exactly_once (p : Process) (c : Int) (p1 : Process)
    (h : wait p = .ok (c, p1)) :
    c = p.exitCode ∧ wait p1 = .error .ProcessAlreadyWaited := by
  unfold wait at h
  split at h
  · cases h
  · injection h with h2
    rw [Prod.mk.injEq] at h2
    obtain ⟨h3, h4⟩ := h2
    refine ⟨h3.symm, ?_⟩
    rw [← h4]
    rfl

theorem c7_wait_exactly_once_witness :
    wait { jid := 1, outBuf := [], exitCode := 0, waited := false } =
      .ok (0, { jid := 1, outBuf := [], exitCode := 0, waited := true }) ∧
    ((0 : Int) = ({ jid := 1, outBuf := [], exitCode := 0, waited := false } : Process).exitCode ∧
      wait { jid := 1, outBuf := [], exitCode := 0, waited := true } =
        .error .ProcessAlreadyWaited) :=
  ⟨by decide,
    c7_wait_exactly_once { jid := 1, outBuf := [], exitCode := 0, waited := false } 0
      { jid := 1, outBuf := [], exitCode := 0, waited := true } (by decide)⟩

/-- C8: name uniqueness on create: creating a jail whose requested
name is already in use by an active jail fails with AlreadyExists and
leaves the kernel state — and hence the original jail — completely
unchanged. -/
theorem c8_name_uniqueness (st : KernelState) (path : String) (n : String)
    (ps : List (String × JValue)) (h : nameInUse st n = true) :
    create st path (some n) ps = (.error .AlreadyExists, st) :=
  create_some_dup st path n ps h

theorem c8_name_uniqueness_witness :
    nameInUse (create initState "/r" (some "foobar") []).2 "foobar" = true ∧
    create (create initState "/r" (some "foobar") []).2 "/other" (some "foobar") [] =
      (.error .AlreadyExists, (create initState "/r" (some "foobar") []).2) :=
  ⟨by decide,
    c8_name_uniqueness (create initState "/r" (some "foobar") []).2 "/other" "foobar" []
      (by decide)⟩

/-- C9: cleanup-on-drop depends on provenance: dropping a handle
obtained by name resolution leaves the kernel state untouched (the
jail keeps running), while dropping an owner-created handle from
create stops the jail. -/
theorem c9_drop_policy :
    (∀ (st : KernelState) (n : String) (h : JailHandle),
      attachByName st n = .ok h →
      h.owned = false ∧ dropHandle st h = st ∧ h.jid ∈ jids (dropHandle st h)) ∧
    (∀ (st : KernelState) (path : String) (name : Option String)
      (ps : List (String × JValue)) (h : JailHandle) (st1 : KernelState),
      create st path name ps = (.ok h, st1) → h.jid ∉ jids (dropHandle st1 h)) := by
  constructor
  · intro st n h ha
    unfold attachByName at ha
    split at ha
    · rename_i j hj
      cases ha
      refine ⟨rfl, rfl, ?_⟩
      show j.jid ∈ st.jails.map JailRecord.jid
      exact List.mem_map.mpr ⟨j, List.mem_of_find?_eq_some hj, rfl⟩
    · cases ha
  · intro st path name ps h st1 hc
    obtain ⟨hh, _⟩ := create_ok_inv st path name ps h st1 hc
    cases hh
    intro hc2
    exact ((mem_jids_removeJail st1 _ _).mp hc2).2 rfl

theorem c9_drop_policy_witness :
    attachByName (create initState "/r" (some "foobar") []).2 "foobar" =
      .ok { jid := 1, owned := false } ∧
    (({ jid := 1, owned := false } : JailHandle).owned = false ∧
      dropHandle (create initState "/r" (some "foobar") []).2 { jid := 1, owned := false } =
        (create initState "/r" (some "foobar") []).2 ∧
      (1 : Nat) ∈ jids (dropHandle (create initState "/r" (some "foobar") []).2
        { jid := 1, owned := false })) ∧
    create initState "/rescue" none [] =
      (.ok { jid := 1, owned := true }, (create initState "/rescue" none []).2) ∧
    (1 : Nat) ∉ jids (dropHandle (create initState "/rescue" none []).2
      { jid := 1, owned := true }) :=
  ⟨by decide,
    c9_drop_policy.1 (create initState "/r" (some "foobar") []).2 "foobar"
      { jid := 1, owned := false } (by decide),
    by decide,
    c9_drop_policy.2 initState "/rescue" none [] { jid := 1, owned := true }
      (create initState "/rescue" none []).2 (by decide)⟩

/-- C10 counterexample: the claim fails for a named stopped-jail
configuration: the first start succeeds, but a second start while the
first is still running fails with AlreadyExists because the name is in
use, so not every StoppedJail value can be started any number of
times. -/
theorem c10_counterexample :
    (start { path := "/rescue", name := some "x", params := [] } initState).1 =
      .ok { jid := 1, owned := true } ∧
    (start { path := "/rescue", name := some "x", params := [] }
      ((start { path := "/rescue", name := some "x", params := [] } initState).2)).1 =
      .error .AlreadyExists :=
  ⟨by decide, by decide⟩

/-- C10 (amended): an unnamed stopped-jail configuration whose
parameters are valid is a reusable template: starting it n times from
the same value always succeeds, the n runs get pairwise-distinct jids,
each of the n running jails can then be stopped separately while the
others stay active, and the configuration value itself is never
consumed or mutated (start is a pure function of it). -/
theorem c10_template_reuse (s : StoppedJail) (st : KernelState) (n : Nat)
    (hname : s.name = none) (hps : paramsOk st.ptable s.params = true) :
    (startTimes s st n).1.length = n ∧
    ((startTimes s st n).1.map JailHandle.jid).Nodup ∧
    (∀ h, h ∈ (startTimes s st n).1 →
      ∃ st2, stop (startTimes s st n).2 h.jid = .ok st2 ∧
        ∀ h2, h2 ∈ (startTimes s st n).1 → h2.jid ≠ h.jid → h2.jid ∈ jids st2) := by
  obtain ⟨h1, h2, h3, h4⟩ := startTimes_unnamed n s st hname hps
  refine ⟨?_, ?_, ?_⟩
  · have hl := congrArg List.length h1
    rwa [List.length_map, List.length_range'] at hl
  · rw [h1]
    exact List.nodup_range' _ _
  · intro h hm
    have hjid : h.jid ∈ List.range' st.nextJid n := by
      rw [← h1]
      exact List.mem_map.mpr ⟨h, hm, rfl⟩
    have hmem : h.jid ∈ jids (startTimes s st n).2 := (h4 h.jid).mpr (Or.inr hjid)
    refine ⟨removeJail (startTimes s st n).2 h.jid, stop_ok_of_mem _ _ hmem, ?_⟩
    intro h2x hm2 hne
    rw [mem_jids_removeJail]
    refine ⟨(h4 h2x.jid).mpr (Or.inr ?_), hne⟩
    rw [← h1]
    exact List.mem_map.mpr ⟨h2x, hm2, rfl⟩

theorem c10_template_reuse_witness :
    (startTimes { path := "/rescue", name := none, params := [] } initState 3).1.length = 3 ∧
    ((startTimes { path := "/rescue", name := none, params := [] } initState 3).1.map
      JailHandle.jid).Nodup ∧
    (∀ h, h ∈ (startTimes { path := "/rescue", name := none, params := [] } initState 3).1 →
      ∃ st2, stop (startTimes { path := "/rescue", name := none, params := [] }
          initState 3).2 h.jid = .ok st2 ∧
        ∀ h2, h2 ∈ (startTimes { path := "/rescue", name := none, params := [] }
            initState 3).1 → h2.jid ≠ h.jid → h2.jid ∈ jids st2) :=
  c10_template_reuse { path := "/rescue", name := none, params := [] } initState 3 rfl rfl

end Jail
